import Mathlib

/-!
Verification development for the dlquant repository: a shallow embedding of
the trial orchestration and backtest-evaluation logic of
src/models/LightGBMModel.py and src/models/TSMixerModel_deploy.py.

Numeric series values are embedded as rationals, timestamps as integers.
External collaborators (sklearn precision_score, optuna suggest_int and
Study.optimize, darts historical_forecasts, torch.sigmoid) are modelled
from their documented behavior at the call sites the repository uses.
-/

namespace DLQuant

/-- A darts TimeSeries reduced to what the evaluation code touches:
a time index (list of timestamps) and the flattened numeric values. -/
structure TimeSeries where
  times : List Int
  values : List Rat
deriving DecidableEq

/-- Python negative-tail slicing, series[-n:]: the last n elements. -/
def lastN (n : Nat) (l : List α) : List α := l.drop (l.length - n)

/-- numpy astype(int) on one float value: truncation toward zero
(floor for nonnegative values, ceiling for negative ones). -/
def astype_int_val (q : ℚ) : ℤ := if 0 ≤ q then ⌊q⌋ else ⌈q⌉

/-- Ground-truth label derivation, LightGBMModel.py line 104 and
TSMixerModel_deploy.py line 116: values().flatten().astype(int). -/
def astype_int (vals : List ℚ) : List ℤ := vals.map astype_int_val

/-- Binarization of one forecast output, LightGBMModel.py line 110
(probabilities greater than 0.5, cast to int): strict threshold at 0.5.
TSMixerModel_deploy.py lines 115-116 apply the same strict comparison to
the sigmoid outputs. -/
def binarize (p : ℚ) : ℤ := if 1 / 2 < p then 1 else 0

/-- The binary prediction vector, LightGBMModel.py line 110. -/
def binary_predictions (probs : List ℚ) : List ℤ := probs.map binarize

/-- True positives of sklearn.metrics.precision_score: pairs where the
prediction is 1 and the true label is 1. -/
def truePositives (yTrue yPred : List ℤ) : Nat :=
  (yTrue.zip yPred).countP (fun tp => tp.1 == 1 && tp.2 == 1)

/-- False positives of sklearn.metrics.precision_score: pairs where the
prediction is 1 but the true label is not 1. -/
def falsePositives (yTrue yPred : List ℤ) : Nat :=
  (yTrue.zip yPred).countP (fun tp => tp.1 != 1 && tp.2 == 1)

/-- sklearn.metrics.precision_score with its default zero_division
behavior: TP / (TP + FP), returning 0 (with a warning, not an exception)
when there are no positive predictions. Called at LightGBMModel.py line
112 and TSMixerModel_deploy.py line 116. -/
def precision_score (yTrue yPred : List ℤ) : ℚ :=
  let tp := truePositives yTrue yPred
  let fp := falsePositives yTrue yPred
  if tp + fp = 0 then 0 else (tp : ℚ) / ((tp : ℚ) + (fp : ℚ))

/-- The scoring step of train_and_evaluate, LightGBMModel.py lines
104-112: derive true labels from the last PRED_STEPS of the test series,
take the last PRED_STEPS of the backtest output, binarize, and score
precision. The intervening lines 105-108 only print the time indices;
no assertion compares them, so the computation reads only the values. -/
def scoring_step (test backtest : TimeSeries) (predSteps : Nat) : ℚ :=
  let true_labels := astype_int (lastN predSteps test.values)
  let probabilities := lastN predSteps backtest.values
  precision_score true_labels (binary_predictions probabilities)

lemma binarize_eq_zero {p : ℚ} (h : ¬ 1 / 2 < p) : binarize p = 0 := by
  rw [binarize, if_neg h]

lemma tp_fp_zero_of_no_pos (yTrue : List ℤ) {yPred : List ℤ}
    (h : ∀ y ∈ yPred, y ≠ 1) :
    truePositives yTrue yPred = 0 ∧ falsePositives yTrue yPred = 0 := by
  constructor
  · rw [truePositives, List.countP_eq_zero]
    intro a ha
    have hmem := (List.of_mem_zip ha).2
    have := h a.2 hmem
    simp only [Bool.and_eq_true, beq_iff_eq]
    intro hcontra
    exact this hcontra.2
  · rw [falsePositives, List.countP_eq_zero]
    intro a ha
    have hmem := (List.of_mem_zip ha).2
    have := h a.2 hmem
    simp only [Bool.and_eq_true, beq_iff_eq, bne_iff_ne, ne_eq]
    intro hcontra
    exact this hcontra.2

/-- C3: for every pair of binarized prediction and ground-truth label
vectors, precision lies in the interval from 0 to 1, satisfies
precision * (TP + FP) = TP (i.e. equals TP/(TP+FP) whenever a positive
prediction exists), and equals 0 — without any division-by-zero
exception — whenever no probability exceeds the 0.5 threshold. -/
theorem C3_precision_bounds (yTrue : List ℤ) (probs : List ℚ) :
    0 ≤ precision_score yTrue (binary_predictions probs) ∧
    precision_score yTrue (binary_predictions probs) ≤ 1 ∧
    precision_score yTrue (binary_predictions probs) *
      ((truePositives yTrue (binary_predictions probs) : ℚ) +
       (falsePositives yTrue (binary_predictions probs) : ℚ)) =
      (truePositives yTrue (binary_predictions probs) : ℚ) ∧
    ((∀ p ∈ probs, ¬ 1 / 2 < p) →
      precision_score yTrue (binary_predictions probs) = 0) := by
  refine ⟨?_, ?_, ?_, ?_⟩
  · simp only [precision_score]
    split
    · exact le_refl 0
    · positivity
  · simp only [precision_score]
    split
    · exact zero_le_one
    · rename_i hne
      have hpos : (0 : ℚ) <
          (truePositives yTrue (binary_predictions probs) : ℚ) +
          (falsePositives yTrue (binary_predictions probs) : ℚ) := by
        have h0 : 0 < truePositives yTrue (binary_predictions probs) +
            falsePositives yTrue (binary_predictions probs) :=
          Nat.pos_of_ne_zero hne
        exact_mod_cast h0
      rw [div_le_one hpos]
      have hfpnn : (0 : ℚ) ≤
          (falsePositives yTrue (binary_predictions probs) : ℚ) :=
        Nat.cast_nonneg _
      linarith
  · simp only [precision_score]
    split
    · rename_i hz
      have h1 : truePositives yTrue (binary_predictions probs) = 0 := by omega
      rw [h1]
      norm_num
    · rename_i hne
      have hpos :
          (truePositives yTrue (binary_predictions probs) : ℚ) +
          (falsePositives yTrue (binary_predictions probs) : ℚ) ≠ 0 := by
        have h0 : 0 < truePositives yTrue (binary_predictions probs) +
            falsePositives yTrue (binary_predictions probs) :=
          Nat.pos_of_ne_zero hne
        have : (0 : ℚ) < (truePositives yTrue (binary_predictions probs) : ℚ) +
            (falsePositives yTrue (binary_predictions probs) : ℚ) := by
          exact_mod_cast h0
        exact this.ne'
      exact div_mul_cancel₀ _ hpos
  · intro h
    have hall : ∀ y ∈ binary_predictions probs, y ≠ 1 := by
      intro y hy
      rw [binary_predictions] at hy
      obtain ⟨p, hp, rfl⟩ := List.mem_map.mp hy
      rw [binarize_eq_zero (h p hp)]
      decide
    obtain ⟨h1, h2⟩ := tp_fp_zero_of_no_pos yTrue hall
    simp only [precision_score, h1, h2]
    norm_num

/-- C3 witness: bounds and the zero-positives case instantiated at
yTrue = [1, 0], probs = [1/4, 1/3] (no probability above 0.5). -/
theorem C3_precision_bounds_witness :
    0 ≤ precision_score [1, 0] (binary_predictions [1/4, 1/3]) ∧
    precision_score [1, 0] (binary_predictions [1/4, 1/3]) ≤ 1 ∧
    precision_score [1, 0] (binary_predictions [1/4, 1/3]) = 0 := by
  have h := C3_precision_bounds [1, 0] [1/4, 1/3]
  refine ⟨h.1, h.2.1, h.2.2.2 ?_⟩
  intro p hp
  simp only [List.mem_cons, List.not_mem_nil, or_false] at hp
  rcases hp with rfl | rfl <;> norm_num

/-- C8: binarization uses a strict threshold: the binary prediction is 1
exactly when the probability is strictly above 0.5, and a value exactly
equal to 0.5 is classified as 0. -/
theorem C8_strict_threshold :
    (∀ p : ℚ, binarize p = 1 ↔ 1 / 2 < p) ∧ binarize (1 / 2) = 0 := by
  constructor
  · intro p
    constructor
    · intro h1
      by_contra hc
      rw [binarize, if_neg hc] at h1
      exact absurd h1 (by decide)
    · intro hlt
      rw [binarize, if_pos hlt]
  · rw [binarize, if_neg (by norm_num)]

/-- C10: ground-truth labels are obtained by casting to int with
truncation toward zero and no validation: any test value strictly
between 0 and 1 is silently coerced to the label 0. -/
theorem C10_label_truncation (q : ℚ) (h1 : 0 < q) (h2 : q < 1) :
    astype_int_val q = 0 ∧ astype_int [q] = [0] := by
  have hfloor : astype_int_val q = 0 := by
    rw [astype_int_val, if_pos h1.le]
    rw [Int.floor_eq_zero_iff]
    exact ⟨h1.le, h2⟩
  exact ⟨hfloor, by simp [astype_int, hfloor]⟩

/-- C10 witness: the value 1/2 is coerced to label 0. -/
theorem C10_label_truncation_witness :
    astype_int_val (1/2) = 0 ∧ astype_int [1/2] = [0] :=
  C10_label_truncation (1/2) (by norm_num) (by norm_num)

/-- A concrete ground-truth test series: two points at timestamps 0 and 1,
both with label 1. -/
def tsTest : TimeSeries := ⟨[0, 1], [1, 1]⟩

/-- A concrete backtest output whose time index (10, 11) does not match
the time index of tsTest, with confident positive probabilities. -/
def tsBacktestShifted : TimeSeries := ⟨[10, 11], [1, 1]⟩

/-- C1 counterexample: the last two timestamps of the ground truth differ
from those of the backtest output, yet the scoring step of
train_and_evaluate (which only prints the indices, lines 105-108, and
never asserts their equality) still proceeds and returns precision 1. -/
theorem C1_counterexample :
    lastN 2 tsTest.times ≠ lastN 2 tsBacktestShifted.times ∧
    scoring_step tsTest tsBacktestShifted 2 = 1 := by
  constructor
  · decide
  · norm_num [scoring_step, precision_score, truePositives, falsePositives,
      astype_int, astype_int_val, binary_predictions, binarize, lastN,
      tsTest, tsBacktestShifted]

/-- C1 (amended): the scoring step performs no timestamp-based alignment
check at all: its result depends only on the trailing values of the two
series and is invariant under arbitrary changes to both time indices, so
scoring proceeds identically on misaligned indices. -/
theorem C1_no_alignment_assertion (tt bt tt2 bt2 : List ℤ)
    (tv bv : List ℚ) (n : Nat) :
    scoring_step ⟨tt, tv⟩ ⟨bt, bv⟩ n = scoring_step ⟨tt2, tv⟩ ⟨bt2, bv⟩ n :=
  rfl

/-- Observable outcome of the tail of train_and_evaluate (lines 104-124):
the computed precision, if reached, and whether the cleanup (del model and
torch.cuda.empty_cache, lines 123-124) was reached. -/
structure TailOutcome where
  precision : Option ℚ
  memoryReleased : Bool
deriving DecidableEq

/-- Lines 104-124 of train_and_evaluate: compute precision, log it, plot,
then release model memory. There is no try/finally around these lines, so
an exception raised by the scoring call (scoreOk = false, e.g. a shape
mismatch inside precision_score) or by the plotting calls
(plotOk = false) propagates immediately and the cleanup on lines 123-124
is never reached. -/
def evaluate_tail (test backtest : TimeSeries) (predSteps : Nat)
    (scoreOk plotOk : Bool) : TailOutcome :=
  if scoreOk then
    if plotOk then
      { precision := some (scoring_step test backtest predSteps),
        memoryReleased := true }
    else
      { precision := some (scoring_step test backtest predSteps),
        memoryReleased := false }
  else
    { precision := none, memoryReleased := false }

/-- C4 counterexample: on the execution path where scoring raises, the
model memory is not released, contradicting the claim that release
happens on every execution path. -/
theorem C4_counterexample :
    (evaluate_tail tsTest tsBacktestShifted 2 false true).memoryReleased
      = false :=
  rfl

/-- C4 (amended): model resources are released only on the fully
successful path: the cleanup runs exactly when both the scoring call and
the subsequent plotting calls complete without raising; an exception in
either skips the release. -/
theorem C4_release_only_on_success (test backtest : TimeSeries) (n : Nat)
    (scoreOk plotOk : Bool) :
    (evaluate_tail test backtest n scoreOk plotOk).memoryReleased
      = (scoreOk && plotOk) := by
  cases scoreOk <;> cases plotOk <;> rfl

/-- torch.sigmoid on a real input, TSMixerModel_deploy.py lines 90-91. -/
noncomputable def sigmoid_torch (x : ℝ) : ℝ := 1 / (1 + Real.exp (-x))

/-- C9: in the TSMixer evaluation path, thresholding the sigmoid output
at 0.5 (line 115) is equivalent to thresholding the raw pre-sigmoid
output at 0: the binary prediction is positive exactly when the raw
output is strictly positive. -/
theorem C9_sigmoid_threshold_equiv (x : ℝ) :
    1 / 2 < sigmoid_torch x ↔ 0 < x := by
  rw [sigmoid_torch]
  have hpos : (0 : ℝ) < 1 + Real.exp (-x) := by positivity
  have h1 : (1 / 2 : ℝ) * (1 + Real.exp (-x)) < 1 ↔ Real.exp (-x) < 1 := by
    constructor <;> intro h <;> linarith
  rw [lt_div_iff₀ hpos, h1, Real.exp_lt_one_iff, neg_lt_zero]

/-- Final state of one optuna trial. -/
inductive TrialState where
  | complete
  | fail
deriving DecidableEq

/-- Whether a trial ended in the complete state. -/
def TrialState.isComplete : TrialState → Bool
  | .complete => true
  | .fail => false

/-- Whether a trial ended in the failed state. -/
def TrialState.isFailed : TrialState → Bool
  | .complete => false
  | .fail => true

/-- One optuna trial record: its number, the objective value it returned
(absent for a failed trial), and its final state. -/
structure TrialRecord where
  number : Nat
  value : Option ℚ
  state : TrialState
deriving DecidableEq

/-- Modelled from the call study.optimize(objective, n_trials=50, n_jobs=1)
at LightGBMModel.py line 176, which passes optuna's default catch=():
trials run sequentially; a trial whose objective returns is recorded as
complete; a trial whose objective raises is recorded as failed and, since
the exception type is not in the empty catch tuple, the exception is
re-raised and terminates the whole optimize call. The input list gives
each would-be trial's outcome; the output is the list of recorded trials
and the exception that escaped the loop, if any. -/
def optimizeLoop : Nat → List (Except String ℚ) → List TrialRecord × Option String
  | _, [] => ([], none)
  | n, .ok v :: rest =>
    let r := optimizeLoop (n + 1) rest
    (⟨n, some v, .complete⟩ :: r.1, r.2)
  | n, .error e :: _ => ([⟨n, none, .fail⟩], some e)

/-- Number of trials recorded as complete. -/
def countComplete (recs : List TrialRecord) : Nat :=
  recs.countP (fun r => r.state.isComplete)

/-- Number of trials recorded as failed. -/
def countFailed (recs : List TrialRecord) : Nat :=
  recs.countP (fun r => r.state.isFailed)

/-- The injection scenario of the claim: five trials, the third raising
a TrainingError, the others succeeding. -/
def injectedOutcomes : List (Except String ℚ) :=
  [.ok 1, .ok 1, .error "TrainingError", .ok 1, .ok 1]

/-- C2 counterexample: injecting a TrainingError on trial 3 of 5 leaves a
study with 2 completed trials (not 4) and 1 failed trial; trials 4 and 5
are never run (only 3 records exist) and the error escapes the loop. -/
theorem C2_counterexample :
    countComplete (optimizeLoop 0 injectedOutcomes).1 = 2 ∧
    countComplete (optimizeLoop 0 injectedOutcomes).1 ≠ 4 ∧
    countFailed (optimizeLoop 0 injectedOutcomes).1 = 1 ∧
    (optimizeLoop 0 injectedOutcomes).1.length = 3 ∧
    (optimizeLoop 0 injectedOutcomes).2 = some "TrainingError" := by
  decide

lemma optimizeLoop_cons_ok (n : Nat) (v : ℚ)
    (rest : List (Except String ℚ)) :
    optimizeLoop n (Except.ok v :: rest) =
      (⟨n, some v, TrialState.complete⟩ :: (optimizeLoop (n + 1) rest).1,
        (optimizeLoop (n + 1) rest).2) := rfl

lemma optimizeLoop_all_ok_then_error (pre : List (Except String ℚ)) :
    ∀ n post e, (∀ o ∈ pre, ∃ v, o = Except.ok v) →
      countComplete (optimizeLoop n (pre ++ Except.error e :: post)).1
        = pre.length ∧
      countFailed (optimizeLoop n (pre ++ Except.error e :: post)).1 = 1 ∧
      (optimizeLoop n (pre ++ Except.error e :: post)).1.length
        = pre.length + 1 ∧
      (optimizeLoop n (pre ++ Except.error e :: post)).2 = some e := by
  induction pre with
  | nil =>
    intro n post e _
    exact ⟨rfl, rfl, rfl, rfl⟩
  | cons o pre ih =>
    intro n post e h
    obtain ⟨v, rfl⟩ := h o (List.mem_cons_self o pre)
    have hrest := ih (n + 1) post e
      (fun o ho => h o (List.mem_cons_of_mem _ ho))
    rw [List.cons_append, optimizeLoop_cons_ok]
    simp only [countComplete, countFailed, List.countP_cons,
      List.length_cons, TrialState.isComplete, TrialState.isFailed] at hrest ⊢
    refine ⟨?_, ?_, ?_, hrest.2.2.2⟩
    · rw [hrest.1]; simp
    · rw [hrest.2.1]; simp
    · rw [hrest.2.2.1]

/-- C2 (amended): a trial-level error does not leave the loop running:
after any prefix of successful trials, a trial whose objective raises is
recorded as failed and its exception terminates the whole study, so the
remaining trials never run. In particular an error on trial 3 of 5 leaves
2 completed trials and 1 failed, and trials 4 and 5 are not attempted. -/
theorem C2_error_terminates_study (pre post : List (Except String ℚ))
    (e : String) (hpre : ∀ o ∈ pre, ∃ v, o = Except.ok v) :
    countComplete (optimizeLoop 0 (pre ++ Except.error e :: post)).1
      = pre.length ∧
    countFailed (optimizeLoop 0 (pre ++ Except.error e :: post)).1 = 1 ∧
    (optimizeLoop 0 (pre ++ Except.error e :: post)).1.length
      = pre.length + 1 ∧
    (optimizeLoop 0 (pre ++ Except.error e :: post)).2 = some e :=
  optimizeLoop_all_ok_then_error pre 0 post e hpre

/-- C2 witness: the amended statement instantiated at the concrete
injection scenario (two successes, then a TrainingError, then two more
would-be successes). -/
theorem C2_error_terminates_study_witness :
    countComplete
      (optimizeLoop 0
        ([Except.ok 1, Except.ok 1] ++
          Except.error "TrainingError" :: [Except.ok 1, Except.ok 1])).1
      = 2 ∧
    countFailed
      (optimizeLoop 0
        ([Except.ok 1, Except.ok 1] ++
          Except.error "TrainingError" :: [Except.ok 1, Except.ok 1])).1
      = 1 ∧
    (optimizeLoop 0
        ([Except.ok 1, Except.ok 1] ++
          Except.error "TrainingError" :: [Except.ok 1, Except.ok 1])).1.length
      = 3 ∧
    (optimizeLoop 0
        ([Except.ok 1, Except.ok 1] ++
          Except.error "TrainingError" :: [Except.ok 1, Except.ok 1])).2
      = some "TrainingError" := by
  have h := C2_error_terminates_study [Except.ok 1, Except.ok 1]
    [Except.ok 1, Except.ok 1] "TrainingError"
    (by intro o ho; simp only [List.mem_cons, List.not_mem_nil, or_false] at ho
        rcases ho with rfl | rfl <;> exact ⟨1, rfl⟩)
  exact h

/-- Modelled from optuna Study best-value tracking under
direction="maximize" (LightGBMModel.py lines 170-176): after a completed
trial the running best is replaced exactly when the trial's value is
strictly greater than the current best; otherwise the earlier best is
kept. -/
def updateBest (best : Option ℚ) (s : ℚ) : Option ℚ :=
  match best with
  | none => some s
  | some b => if b < s then some s else some b

/-- The best value after a sequence of completed-trial scores. -/
def bestValue (scores : List ℚ) : Option ℚ := scores.foldl updateBest none

/-- The objective values of the successfully completed trials, in order
(failed trials carry no value and are skipped). -/
def completedValues (recs : List TrialRecord) : List ℚ :=
  recs.filterMap (fun r => r.value)

lemma foldl_updateBest_some (l : List ℚ) :
    ∀ a b, l.foldl updateBest (some a) = some b →
      (b = a ∨ b ∈ l) ∧ a ≤ b ∧ ∀ s ∈ l, s ≤ b := by
  induction l with
  | nil =>
    intro a b h
    simp only [List.foldl_nil, Option.some.injEq] at h
    subst h
    exact ⟨Or.inl rfl, le_refl a, by simp⟩
  | cons x l ih =>
    intro a b h
    rw [List.foldl_cons] at h
    by_cases hax : a < x
    · rw [updateBest, if_pos hax] at h
      obtain ⟨hmem, hle, hall⟩ := ih x b h
      refine ⟨?_, ?_, ?_⟩
      · rcases hmem with rfl | hm
        · exact Or.inr (List.mem_cons_self _ _)
        · exact Or.inr (List.mem_cons_of_mem _ hm)
      · linarith
      · intro s hs
        rcases List.mem_cons.mp hs with rfl | hm
        · exact hle
        · exact hall s hm
    · rw [updateBest, if_neg hax] at h
      obtain ⟨hmem, hle, hall⟩ := ih a b h
      refine ⟨?_, hle, ?_⟩
      · rcases hmem with rfl | hm
        · exact Or.inl rfl
        · exact Or.inr (List.mem_cons_of_mem _ hm)
      · intro s hs
        rcases List.mem_cons.mp hs with rfl | hm
        · push_neg at hax
          linarith
        · exact hall s hm

lemma bestValue_spec (l : List ℚ) (b : ℚ) (h : bestValue l = some b) :
    b ∈ l ∧ ∀ s ∈ l, s ≤ b := by
  cases l with
  | nil => simp [bestValue] at h
  | cons x l =>
    rw [bestValue, List.foldl_cons] at h
    have h' : l.foldl updateBest (some x) = some b := h
    obtain ⟨hmem, hle, hall⟩ := foldl_updateBest_some l x b h'
    refine ⟨?_, ?_⟩
    · rcases hmem with rfl | hm
      · exact List.mem_cons_self _ _
      · exact List.mem_cons_of_mem _ hm
    · intro s hs
      rcases List.mem_cons.mp hs with rfl | hm
      · exact hle
      · exact hall s hm

/-- C7: the best value tracked by the maximize-direction study is the
maximum over the values of the successfully completed trials of the run:
it is attained by some completed trial (so the final report draws only on
completed trials) and no completed trial scores above it. -/
theorem C7_best_is_max_of_completed (outcomes : List (Except String ℚ))
    (b : ℚ)
    (h : bestValue (completedValues (optimizeLoop 0 outcomes).1) = some b) :
    b ∈ completedValues (optimizeLoop 0 outcomes).1 ∧
    ∀ s ∈ completedValues (optimizeLoop 0 outcomes).1, s ≤ b :=
  bestValue_spec _ b h

/-- C7 witness: for the two completed trials with values 1 and 2, the
tracked best 2 is among the completed values and dominates the value 1. -/
theorem C7_best_is_max_of_completed_witness :
    (2 : ℚ) ∈ completedValues
      (optimizeLoop 0 [Except.ok 1, Except.ok 2]).1 ∧
    (1 : ℚ) ≤ (2 : ℚ) := by
  have h := C7_best_is_max_of_completed [Except.ok 1, Except.ok 2] 2
    (by decide)
  exact ⟨h.1, h.2 1 (by decide)⟩

/-- Modelled from optuna trial.suggest_int as called in define_model: the
sampler draws an integer from the inclusive range low..high. optuna
validates the range first and raises when high is below low (the spec's
ConfigurationError), never swapping the bounds; otherwise the returned
draw always lies inside the range, modelled by clamping an external draw
into it. -/
def suggest_int (low high draw : ℤ) : Except String ℤ :=
  if high < low then Except.error "ConfigurationError"
  else Except.ok (min high (max low draw))

/-- LightGBMModel.py line 53: the output_chunk_length hyperparameter is
proposed from the integer range 1 .. min 20 PRED_STEPS. -/
def suggest_output_chunk_length (predSteps draw : ℤ) : Except String ℤ :=
  suggest_int 1 (min 20 predSteps) draw

/-- C5: the upper bound of the output-horizon proposal is the declared
maximum 20 clamped by the available prediction steps: every successfully
resolved value is between 1 and 20 and never exceeds PRED_STEPS; when
PRED_STEPS is below the declared lower bound 1 the resolution fails with
a ConfigurationError instead of swapping bounds, and when PRED_STEPS is
at least 1 it does not fail. -/
theorem C5_output_horizon_cap (predSteps draw : ℤ) :
    (∀ v, suggest_output_chunk_length predSteps draw = Except.ok v →
      1 ≤ v ∧ v ≤ 20 ∧ v ≤ predSteps) ∧
    (predSteps < 1 →
      suggest_output_chunk_length predSteps draw
        = Except.error "ConfigurationError") ∧
    (1 ≤ predSteps →
      ¬ suggest_output_chunk_length predSteps draw
          = Except.error "ConfigurationError") := by
  refine ⟨?_, ?_, ?_⟩
  · intro v hv
    rw [suggest_output_chunk_length, suggest_int] at hv
    by_cases hlt : min 20 predSteps < 1
    · rw [if_pos hlt] at hv
      exact absurd hv (by simp)
    · rw [if_neg hlt] at hv
      have hv2 : min (min 20 predSteps) (max 1 draw) = v :=
        Option.some.inj (congrArg Except.toOption hv)
    -- bounds of the clamped value
      push_neg at hlt
      refine ⟨?_, ?_, ?_⟩
      · rw [← hv2]
        exact le_min hlt (le_max_left 1 draw)
      · rw [← hv2]
        exact le_trans (min_le_left _ _) (min_le_left 20 predSteps)
      · rw [← hv2]
        exact le_trans (min_le_left _ _) (min_le_right 20 predSteps)
  · intro h
    rw [suggest_output_chunk_length, suggest_int,
      if_pos ((min_le_right 20 predSteps).trans_lt h)]
  · intro h
    rw [suggest_output_chunk_length, suggest_int,
      if_neg (not_lt.mpr (le_min (by norm_num) h))]
    simp

/-- C5 witness: with 25 available steps a draw of 30 resolves inside the
capped range (to 20), and with 0 available steps resolution fails with a
ConfigurationError while with 25 it does not. -/
theorem C5_output_horizon_cap_witness :
    ((1 : ℤ) ≤ 20 ∧ (20 : ℤ) ≤ 20 ∧ (20 : ℤ) ≤ 25) ∧
    suggest_output_chunk_length 0 5 = Except.error "ConfigurationError" ∧
    ¬ suggest_output_chunk_length 25 30
        = Except.error "ConfigurationError" :=
  ⟨(C5_output_horizon_cap 25 30).1 20 rfl,
   (C5_output_horizon_cap 0 5).2.1 (by decide),
   (C5_output_horizon_cap 25 30).2.2 (by decide)⟩

/-- Rolling forecast origins of darts historical_forecasts: starting at a
given position, one forecast is produced whenever a full horizon still
fits inside the series, and the origin then advances by the stride. -/
def rollingOrigins (len horizon stride start : Nat) : List Nat :=
  if 0 < horizon ∧ 0 < stride ∧ start + horizon ≤ len then
    start :: rollingOrigins len horizon stride (start + stride)
  else []
termination_by len - start
decreasing_by omega

/-- Modelled from darts historical_forecasts with its default
last_points_only=True, as invoked at LightGBMModel.py lines 93-101: every
rolling origin contributes the final point of its horizon-length
forecast; that point carries the series timestamp at the corresponding
position and the model's predicted value there. retrain=False means the
same fixed model (predFun) is used at every step. -/
def historical_forecasts (series : TimeSeries) (predFun : ℤ → ℚ)
    (startPos horizon stride : Nat) : TimeSeries :=
  let idxs := (rollingOrigins series.times.length horizon stride
    startPos).map (fun o => o + horizon - 1)
  ⟨idxs.map (fun i => series.times.getD i 0),
   idxs.map (fun i => predFun (series.times.getD i 0))⟩

/-- The backtest invocation of train_and_evaluate, LightGBMModel.py lines
93-101: start at test.time_index[-PRED_STEPS], forecast_horizon = 1,
stride = 1, retrain = False. -/
def backtest_series (test : TimeSeries) (predFun : ℤ → ℚ)
    (predSteps : Nat) : TimeSeries :=
  historical_forecasts test predFun (test.times.length - predSteps) 1 1

lemma rollingOrigins_one_one_map (l : List ℤ) (f : ℤ → ℚ) :
    ∀ k s, l.length - s = k →
      (rollingOrigins l.length 1 1 s).map (fun o => l.getD o 0) = l.drop s ∧
      (rollingOrigins l.length 1 1 s).map (fun o => f (l.getD o 0))
        = (l.drop s).map f := by
  intro k
  induction k with
  | zero =>
    intro s hs
    rw [rollingOrigins, if_neg (by omega)]
    have hdrop : l.drop s = [] := List.drop_eq_nil_of_le (by omega)
    simp [hdrop]
  | succ k ih =>
    intro s hs
    have hslt : s < l.length := by omega
    rw [rollingOrigins, if_pos ⟨Nat.one_pos, Nat.one_pos, by omega⟩]
    obtain ⟨ih1, ih2⟩ := ih (s + 1) (by omega)
    rw [List.map_cons, List.map_cons, ih1, ih2,
      List.drop_eq_getElem_cons hslt, List.map_cons,
      List.getD_eq_getElem _ _ hslt]
    exact ⟨rfl, rfl⟩

/-- C6: the rolling-origin backtest as invoked by train_and_evaluate
(start at the final PRED_STEPS of test, horizon 1, stride 1, fixed model)
produces exactly L forecast points for a window of length L, and the
timestamp of every forecast point equals the corresponding ground-truth
timestamp (the time index of the last L test points). -/
theorem C6_backtest_alignment (test : TimeSeries) (predFun : ℤ → ℚ)
    (L : Nat) (hL : L ≤ test.times.length) :
    (backtest_series test predFun L).times.length = L ∧
    (backtest_series test predFun L).values.length = L ∧
    (backtest_series test predFun L).times = lastN L test.times := by
  have key := rollingOrigins_one_one_map test.times predFun
    (test.times.length - (test.times.length - L)) (test.times.length - L)
    rfl
  have hmapid :
      (rollingOrigins test.times.length 1 1
        (test.times.length - L)).map (fun o => o + 1 - 1) =
      rollingOrigins test.times.length 1 1 (test.times.length - L) := by
    simp
  have htimes : (backtest_series test predFun L).times
      = lastN L test.times := by
    rw [backtest_series, historical_forecasts]
    simp only [List.map_map]
    rw [lastN]
    have : ((fun o => test.times.getD o 0) ∘ fun o => o + 1 - 1)
        = fun o => test.times.getD o 0 := by
      funext o
      simp
    rw [this]
    exact key.1
  refine ⟨?_, ?_, htimes⟩
  · rw [htimes, lastN, List.length_drop]
    omega
  · have hvals : (backtest_series test predFun L).values
        = (test.times.drop (test.times.length - L)).map predFun := by
      rw [backtest_series, historical_forecasts]
      simp only [List.map_map]
      have : ((fun i => predFun (test.times.getD i 0)) ∘ fun o => o + 1 - 1)
          = fun o => predFun (test.times.getD o 0) := by
        funext o
        simp
      rw [this]
      exact key.2
    rw [hvals, List.length_map, List.length_drop]
    omega

/-- A fixed one-step forecast model used to instantiate the backtest. -/
def constPredFun : ℤ → ℚ := fun _ => 1

/-- C6 witness: over the two-point test series the backtest with window
length 2 produces exactly 2 points whose time index equals the time index
of the last 2 ground-truth points. -/
theorem C6_backtest_alignment_witness :
    (backtest_series tsTest constPredFun 2).times.length = 2 ∧
    (backtest_series tsTest constPredFun 2).values.length = 2 ∧
    (backtest_series tsTest constPredFun 2).times = lastN 2 tsTest.times :=
  C6_backtest_alignment tsTest constPredFun 2 (by decide)

end DLQuant
